import Mathlib

/-!
Verification of the order-book core of the Project-TradingSystem repository.

The embedding follows the Python source:
  * `src/utils/order_book.py`        (class `OrderBook`)
  * `src/utils/market_data_second.py` (class `MarketDataStreamSecond`)
  * `src/utils/OB_snapshot_reader.py` (class `OrderBookSnapshotReader`)

Prices and sizes (Python floats) are modelled as rationals; the only
arithmetic the modelled code performs on them is negation, comparison and
an average that the source computes but never uses, so exact arithmetic is
a faithful model.  `sortedcontainers.SortedDict` is modelled as an
association list whose keys are kept strictly ascending.
-/

namespace TradingSystem

abbrev Price := ℚ
abbrev Size := ℚ

/-- Model of `sortedcontainers.SortedDict` with rational keys and values:
an association list whose keys are strictly ascending (see `SDSorted`). -/
abbrev SDict := List (Price × Size)

/-- Key order invariant of the `SortedDict` model. -/
def SDSorted (d : SDict) : Prop := d.Pairwise (fun a b => a.1 < b.1)

/-- `d[k]` lookup returning `none` when the key is absent. -/
def sdGet (k : Price) : SDict → Option Size
  | [] => none
  | e :: t => if e.1 = k then some e.2 else sdGet k t

/-- `d[k] = v`: insert or overwrite, keeping keys sorted. -/
def sdInsert (k : Price) (v : Size) : SDict → SDict
  | [] => [(k, v)]
  | e :: t =>
    if k < e.1 then (k, v) :: e :: t
    else if k = e.1 then (k, v) :: t
    else e :: sdInsert k v t

/-- `del d[k]`, a no-op when the key is absent (the Python call sites
guard the `del` with a membership test, which has the same effect). -/
def sdErase (k : Price) : SDict → SDict
  | [] => []
  | e :: t => if e.1 = k then t else e :: sdErase k t

/-- Number of elements the Python slice `l[:n]` keeps from a list of
length `len`: a nonnegative bound keeps the first `n`, a negative bound
drops the last `-n`. -/
def pyCount (n : ℤ) (len : ℕ) : ℕ :=
  if 0 ≤ n then n.toNat else len - (-n).toNat

/-- Python slice `l[:n]` for an `int` bound `n`. -/
def pyTake (n : ℤ) (l : List α) : List α :=
  l.take (pyCount n l.length)

/-- One pass of a stable insertion sort, modelling Python `sorted`. -/
def insertSorted (le : α → α → Bool) (x : α) : List α → List α
  | [] => [x]
  | y :: t => if le x y then x :: y :: t else y :: insertSorted le x t

/-- Stable sort by the boolean relation `le`, modelling Python `sorted`
(with `le` encoding the sort key and direction). -/
def sortBy (le : α → α → Bool) (l : List α) : List α :=
  l.foldr (insertSorted le) []

/-- State of `OrderBook` (src/utils/order_book.py).  `bids` is keyed by
negated price (descending actual price), `asks` by price.  `last_update`
models the attribute of the same name that `OrderBookSnapshotReader`
dynamically adds to the Python object; the wire path never touches it. -/
structure OrderBook where
  symbol : String
  max_levels : ℤ
  bids : SDict := []
  asks : SDict := []
  last_update_time : Option String := none
  last_update : Option String := none
deriving DecidableEq, Repr

/-- A wire message dict in the shape `OrderBook.update` consumes, with
every price/size entry well formed (both keys present); `none` models an
absent dict key.  Malformed entries are treated separately (see `EntryE`
and `updateE`). -/
structure Msg where
  T : Option String := none
  S : Option String := none
  t : Option String := none
  r : Option Bool := none
  b : Option (List (Price × Size)) := none
  a : Option (List (Price × Size)) := none
deriving DecidableEq, Repr

namespace OrderBook

/-- Body of the loop of `OrderBook._update_bids` for one `(price, size)`
entry: `size == 0` deletes the negated-price key, otherwise inserts or
overwrites it. -/
def bidStep (d : SDict) (u : Price × Size) : SDict :=
  if u.2 = 0 then sdErase (-u.1) d else sdInsert (-u.1) u.2 d

/-- `OrderBook._update_bids` over a list of well-formed entries. -/
def updateBids (upds : List (Price × Size)) (d : SDict) : SDict :=
  upds.foldl bidStep d

/-- Body of the loop of `OrderBook._update_asks` for one entry. -/
def askStep (d : SDict) (u : Price × Size) : SDict :=
  if u.2 = 0 then sdErase u.1 d else sdInsert u.1 u.2 d

/-- `OrderBook._update_asks` over a list of well-formed entries. -/
def updateAsks (upds : List (Price × Size)) (d : SDict) : SDict :=
  upds.foldl askStep d

/-- Ladder built by the bid loop of `OrderBook._reset_book`: starting from
the cleared dict, insert each entry whose size is `> 0` under its negated
price. -/
def resetLadderBids (entries : List (Price × Size)) : SDict :=
  entries.foldl (fun d e => if 0 < e.2 then sdInsert (-e.1) e.2 d else d) []

/-- Ladder built by the ask loop of `OrderBook._reset_book`. -/
def resetLadderAsks (entries : List (Price × Size)) : SDict :=
  entries.foldl (fun d e => if 0 < e.2 then sdInsert e.1 e.2 d else d) []

/-- `OrderBook._reset_book`: clear both sides, then rebuild from the given
entries, dropping sizes `≤ 0`. -/
def resetBook (bk : OrderBook) (bs as : List (Price × Size)) : OrderBook :=
  { bk with bids := resetLadderBids bs, asks := resetLadderAsks as }

/-- `OrderBook.get_best_bid_price`: negate the first stored key. -/
def getBestBidPrice (bk : OrderBook) : Option Price :=
  match bk.bids with
  | [] => none
  | e :: _ => some (-e.1)

/-- `OrderBook.get_best_ask_price`: the first stored key. -/
def getBestAskPrice (bk : OrderBook) : Option Price :=
  match bk.asks with
  | [] => none
  | e :: _ => some e.1

/-- `OrderBook._trim_to_max_levels`.  The source lists each side, sorts
bids by actual price descending and asks by price ascending, takes the
Python slice `[:max_levels]` as the keep set, and deletes every key not
in it.  The mid price is computed by the source but never used in the
keep decision, so it does not appear here. -/
def trimBook (bk : OrderBook) : OrderBook :=
  if bk.bids = [] ∨ bk.asks = [] then bk
  else
    -- all_bids: iterate reversed(self.bids.keys()), record (negated, actual, size)
    let allBids : List (Price × Price × Size) :=
      (bk.bids.map (fun e => (e.1, -e.1, e.2))).reverse
    let sortedBids := sortBy (fun x y => y.2.1 ≤ x.2.1) allBids
    let bidsKeep := (pyTake bk.max_levels sortedBids).map (fun x => x.1)
    let newBids := bk.bids.filter (fun e => e.1 ∈ bidsKeep)
    let allAsks := bk.asks
    let sortedAsks := sortBy (fun x y => x.1 ≤ y.1) allAsks
    let asksKeep := (pyTake bk.max_levels sortedAsks).map (fun x => x.1)
    let newAsks := bk.asks.filter (fun e => e.1 ∈ asksKeep)
    { bk with bids := newBids, asks := newAsks }

/-- The reset-or-delta body of `OrderBook.update`, after the guards and
including the timestamp write, before the trim call. -/
def applyBody (bk : OrderBook) (message : Msg) : OrderBook :=
  let bk1 := { bk with last_update_time := message.t }
  if message.r.getD false then
    resetBook bk1 (message.b.getD []) (message.a.getD [])
  else
    let bk2 :=
      match message.b with
      | some l => if l = [] then bk1 else { bk1 with bids := updateBids l bk1.bids }
      | none => bk1
    match message.a with
    | some l => if l = [] then bk2 else { bk2 with asks := updateAsks l bk2.asks }
    | none => bk2

/-- `OrderBook.update`: guard on message type and symbol, apply the reset
or delta body, then trim. -/
def update (bk : OrderBook) (message : Msg) : OrderBook :=
  if message.T ≠ some "o" then bk
  else if message.S ≠ some bk.symbol then bk
  else trimBook (applyBody bk message)

/-- `OrderBook.get_bids`: take the Python slice `[:max_levels]` of the
keys in stored (ascending negated = descending actual price) order and
report `(actual_price, size)` pairs; `none` means the default
`len(self.bids)`. -/
def getBids (bk : OrderBook) (maxLevels : Option ℤ) : List (Price × Size) :=
  let m := maxLevels.getD (bk.bids.length : ℤ)
  (pyTake m bk.bids).map (fun e => (-e.1, e.2))

/-- `OrderBook.get_asks`: sort the ask keys descending, take the Python
slice `[:max_levels]`, and look each price up. -/
def getAsks (bk : OrderBook) (maxLevels : Option ℤ) : List (Price × Size) :=
  let m := maxLevels.getD (bk.asks.length : ℤ)
  let sortedPrices := pyTake m (sortBy (fun x y => y ≤ x) (bk.asks.map (fun e => e.1)))
  sortedPrices.map (fun p => (p, (sdGet p bk.asks).getD 0))

end OrderBook

/-! ### Exception-aware model of the entry loops

The Python loops read `update['p']` and `update['s']` by bare subscript:
a dict missing one of the keys raises `KeyError`, which propagates out of
`OrderBook.update`, leaving the mutations already performed in place.
`EntryE` models an entry dict whose keys may be absent, and the `...E`
functions return the (partially mutated) state together with the raised
error, `none` meaning normal completion. -/

/-- A price/size entry dict whose `'p'` and `'s'` keys may be absent. -/
structure EntryE where
  p : Option Price := none
  s : Option Size := none
deriving DecidableEq, Repr

/-- An entry dict carrying both keys, as `Msg` assumes. -/
def liftEntry (u : Price × Size) : EntryE := { p := some u.1, s := some u.2 }

/-- A wire message whose entry lists may contain malformed entries. -/
structure MsgE where
  T : Option String := none
  S : Option String := none
  t : Option String := none
  r : Option Bool := none
  b : Option (List EntryE) := none
  a : Option (List EntryE) := none
deriving DecidableEq, Repr

/-- View a well-formed message as an `MsgE`. -/
def liftMsg (m : Msg) : MsgE :=
  { T := m.T, S := m.S, t := m.t, r := m.r,
    b := m.b.map (List.map liftEntry), a := m.a.map (List.map liftEntry) }

namespace OrderBook

/-- `OrderBook._update_bids` with the `KeyError` paths: the source reads
`update['p']` first and `update['s']` second, so whichever key is missing
first aborts the loop there, keeping the updates already applied. -/
def updateBidsE : List EntryE → SDict → SDict × Option String
  | [], d => (d, none)
  | e :: t, d =>
    match e.p with
    | none => (d, some "KeyError: p")
    | some p =>
      match e.s with
      | none => (d, some "KeyError: s")
      | some s => updateBidsE t (if s = 0 then sdErase (-p) d else sdInsert (-p) s d)

/-- `OrderBook._update_asks` with the `KeyError` paths. -/
def updateAsksE : List EntryE → SDict → SDict × Option String
  | [], d => (d, none)
  | e :: t, d =>
    match e.p with
    | none => (d, some "KeyError: p")
    | some p =>
      match e.s with
      | none => (d, some "KeyError: s")
      | some s => updateAsksE t (if s = 0 then sdErase p d else sdInsert p s d)

/-- The bid loop of `OrderBook._reset_book` with the `KeyError` paths:
the source tests `bid['s'] > 0` before reading `bid['p']`. -/
def resetBidsE : List EntryE → SDict → SDict × Option String
  | [], d => (d, none)
  | e :: t, d =>
    match e.s with
    | none => (d, some "KeyError: s")
    | some s =>
      if 0 < s then
        match e.p with
        | none => (d, some "KeyError: p")
        | some p => resetBidsE t (sdInsert (-p) s d)
      else resetBidsE t d

/-- The ask loop of `OrderBook._reset_book` with the `KeyError` paths. -/
def resetAsksE : List EntryE → SDict → SDict × Option String
  | [], d => (d, none)
  | e :: t, d =>
    match e.s with
    | none => (d, some "KeyError: s")
    | some s =>
      if 0 < s then
        match e.p with
        | none => (d, some "KeyError: p")
        | some p => resetAsksE t (sdInsert p s d)
      else resetAsksE t d

/-- `OrderBook.update` with the `KeyError` paths.  A raised error skips
everything after the raise point (including the trim call) but keeps the
mutations made before it, exactly like the Python exception. -/
def updateE (bk : OrderBook) (message : MsgE) : OrderBook × Option String :=
  if message.T ≠ some "o" then (bk, none)
  else if message.S ≠ some bk.symbol then (bk, none)
  else
    let bk1 := { bk with last_update_time := message.t }
    if message.r.getD false then
      match resetBidsE (message.b.getD []) [] with
      | (d, some err) => ({ bk1 with bids := d, asks := [] }, some err)
      | (d, none) =>
        match resetAsksE (message.a.getD []) [] with
        | (d2, some err) => ({ bk1 with bids := d, asks := d2 }, some err)
        | (d2, none) => (trimBook { bk1 with bids := d, asks := d2 }, none)
    else
      let stage1 :=
        match message.b with
        | some l =>
          if l = [] then (bk1, none)
          else
            match updateBidsE l bk1.bids with
            | (d, err) => ({ bk1 with bids := d }, err)
        | none => (bk1, none)
      match stage1 with
      | (bk2, some err) => (bk2, some err)
      | (bk2, none) =>
        let stage2 :=
          match message.a with
          | some l =>
            if l = [] then (bk2, none)
            else
              match updateAsksE l bk2.asks with
              | (d, err) => ({ bk2 with asks := d }, err)
          | none => (bk2, none)
        match stage2 with
        | (bk3, some err) => (bk3, some err)
        | (bk3, none) => (trimBook bk3, none)

/-- `OrderBook.__init__`: both ladders start empty. -/
def init (symbol : String) (max_levels : ℤ) : OrderBook :=
  { symbol := symbol, max_levels := max_levels }

end OrderBook

/-! ### Feed session (src/utils/market_data_second.py)

`MarketDataStreamSecond._check_for_snapshot` is the pure core of the
duplicate-snapshot protocol: it inspects one decoded frame, applies an
accepted reset to the order book, and flags duplicates for the
subscription loop (which then sleeps briefly and keeps waiting on the
unchanged deadline).  The source dispatches `order_book.update` to an
executor; its effect on the book state is modelled as the update itself. -/

structure StreamState where
  symbol : String
  order_book : OrderBook
  last_snapshot_timestamp : Option String := none
  duplicate_detected : Bool := false
  snapshot_count : ℕ := 0
  message_count : ℕ := 0
  snapshot_event_set : Bool := false
deriving DecidableEq, Repr

/-- The guard of `_check_for_snapshot`: an order-book frame for the
tracked symbol with `r: true`. -/
def isResetFrame (sym : String) (msg : Msg) : Bool :=
  decide (msg.T = some "o") && decide (msg.S = some sym) && msg.r.getD false

/-- `MarketDataStreamSecond._check_for_snapshot`. -/
def checkForSnapshot (st : StreamState) (msg : Msg) : StreamState × Option Msg :=
  if isResetFrame st.symbol msg then
    if msg.t = st.last_snapshot_timestamp then
      ({ st with duplicate_detected := true, snapshot_event_set := true }, none)
    else
      ({ st with
          last_snapshot_timestamp := msg.t,
          snapshot_count := st.snapshot_count + 1,
          message_count := st.message_count + 1,
          order_book := OrderBook.update st.order_book msg }, some msg)
  else (st, none)

/-! ### Replay reader (src/utils/OB_snapshot_reader.py) -/

/-- A recorded `{price, size}` entry; `.get` returns `None` for a
missing key. -/
structure SnapEntry where
  price : Option Price := none
  size : Option Size := none
deriving DecidableEq, Repr

/-- A recorded snapshot `{time, data: {bids, asks}}`; a missing `data`
key or missing lists read as `[]` via `.get(..., [])`, and `time := none`
models an absent `time` key. -/
structure Snapshot where
  time : Option String := none
  bids : List SnapEntry := []
  asks : List SnapEntry := []
deriving DecidableEq, Repr

/-- Python truthiness of a `.get` result: `None` and `0` are falsy. -/
def truthyQ (x : Option ℚ) : Bool :=
  match x with
  | none => false
  | some v => decide (v ≠ 0)

/-- Bid loop of `OrderBookSnapshotReader._update_orderbook`:
`if price and size: self.order_book.bids[price] = size` — note the key is
the price itself, not the negated price the wire path uses. -/
def readerBidStep (d : SDict) (e : SnapEntry) : SDict :=
  if truthyQ e.price && truthyQ e.size then sdInsert (e.price.getD 0) (e.size.getD 0) d
  else d

/-- Ask loop of `OrderBookSnapshotReader._update_orderbook`. -/
def readerAskStep (d : SDict) (e : SnapEntry) : SDict :=
  if truthyQ e.price && truthyQ e.size then sdInsert (e.price.getD 0) (e.size.getD 0) d
  else d

/-- `OrderBookSnapshotReader._update_orderbook`: clear both ladders,
rebuild them from the record, and write the timestamp to the
dynamically-created `last_update` attribute (not `last_update_time`).
No trim is applied and no symbol/type guard exists on this path. -/
def readerUpdate (bk : OrderBook) (snap : Snapshot) : OrderBook :=
  { bk with
      bids := snap.bids.foldl readerBidStep [],
      asks := snap.asks.foldl readerAskStep [],
      last_update := match snap.time with
        | some ti => some ti
        | none => bk.last_update }

/-! ### Event payload across the queue (src/utils/OB_snapshot_reader.py
`connect`, src/Strats/strategy_runner.py `run`)

`connect` publishes `Event(type=ORDERBOOK_UPDATE, payload=self.order_book)`:
the payload is a reference to the single shared `OrderBook` object, not a
copy of its ladders.  `Payload` records what the source puts on the queue;
`readPayload` is what the dequeuing decision stage observes when it uses
the payload after further ingestion steps have mutated the shared book. -/

inductive Payload where
  | liveBook : Payload
deriving DecidableEq, Repr

structure PipelineState where
  book : OrderBook
  queue : List Payload := []
deriving DecidableEq, Repr

/-- One iteration of `OrderBookSnapshotReader.connect`: update the shared
book, then enqueue an event whose payload is the live book reference. -/
def publishStep (st : PipelineState) (snap : Snapshot) : PipelineState :=
  { book := readerUpdate st.book snap, queue := st.queue ++ [Payload.liveBook] }

/-- Replay a list of recorded snapshots through `connect`. -/
def replayPublish (st : PipelineState) (snaps : List Snapshot) : PipelineState :=
  snaps.foldl publishStep st

/-- Dereference a dequeued payload in `StrategyRunner.run` against the
current shared state. -/
def readPayload (st : PipelineState) (p : Payload) : OrderBook :=
  match p with
  | .liveBook => st.book

/-- Both key ladders of a book keep the `SortedDict` key invariant. -/
def WF (bk : OrderBook) : Prop := SDSorted bk.bids ∧ SDSorted bk.asks

/-- Size of the last entry of a delta list naming price `p`, if any. -/
def lastSize (p : Price) : List (Price × Size) → Option Size
  | [] => none
  | u :: t =>
    match lastSize p t with
    | some s => some s
    | none => if u.1 = p then some u.2 else none

/-- All prices stored on both sides of the book are strictly positive
(the sides of `bids` hold negated keys, so positivity refers to the
stored sizes, the second components). -/
def SizesPos (bk : OrderBook) : Prop :=
  (∀ e ∈ bk.bids, 0 < e.2) ∧ (∀ e ∈ bk.asks, 0 < e.2)

/-- A delta message all of whose entries carry nonnegative sizes (reset
messages are unconstrained: their rebuild drops sizes `≤ 0` anyway). -/
def deltaSizesNonneg (m : Msg) : Bool :=
  if m.r.getD false then true
  else
    (m.b.getD []).all (fun u => decide (0 ≤ u.2)) &&
    (m.a.getD []).all (fun u => decide (0 ≤ u.2))

/-- A delta frame carrying the book-update tag and the tracked symbol. -/
def deltaMsgOK (sym : String) (m : Msg) : Bool :=
  decide (m.T = some "o") && decide (m.S = some sym) && !(m.r.getD false)

/-- Apply a list of wire messages through `OrderBook.update`. -/
def applyTrace (bk : OrderBook) (msgs : List Msg) : OrderBook :=
  msgs.foldl OrderBook.update bk

/-- Along this trace, the trim pass after each message evicts nothing
(each side always fits within `max_levels`, or a side is empty). -/
def trimFree (bk : OrderBook) : List Msg → Bool
  | [] => true
  | m :: ms =>
    let bk1 := OrderBook.applyBody bk m
    decide (OrderBook.trimBook bk1 = bk1) && trimFree (OrderBook.update bk m) ms

/-! ### Concrete frames and states instantiating the theorems below -/

/-- A reset frame with one level per side. -/
def exResetSmall : Msg :=
  { T := some "o", S := some "BTC/USD", t := some "ts1", r := some true,
    b := some [(100, 1)], a := some [(101, 1)] }

/-- A reset frame with two levels per side. -/
def exResetTwo : Msg :=
  { T := some "o", S := some "BTC/USD", t := some "ts2", r := some true,
    b := some [(100, 1), (99, 1)], a := some [(101, 1), (102, 1)] }

/-- A reset frame carrying only bids. -/
def exResetBidsOnly : Msg :=
  { T := some "o", S := some "BTC/USD", t := some "ts3", r := some true,
    b := some [(100, 1), (99, 1)], a := some [] }

/-- A delta frame adding a bid below the best bid. -/
def exDeltaBid99 : Msg :=
  { T := some "o", S := some "BTC/USD", t := some "ts4", b := some [(99, 5)] }

/-- A delta frame carrying a negative size. -/
def exDeltaNeg : Msg :=
  { T := some "o", S := some "BTC/USD", t := some "ts5", b := some [(100, -1)] }

/-- First of two delta frames overwriting the same bid price. -/
def exDeltaW1 : Msg :=
  { T := some "o", S := some "BTC/USD", t := some "ts6", b := some [(100, 2)] }

/-- Second of two delta frames overwriting the same bid price; it also
deletes the only ask. -/
def exDeltaW2 : Msg :=
  { T := some "o", S := some "BTC/USD", t := some "ts7",
    b := some [(100, 3)], a := some [(101, 0)] }

/-- A small book already holding one level per side. -/
def exBookW : OrderBook :=
  { symbol := "BTC/USD", max_levels := 10, bids := [(-100, 1)], asks := [(101, 1)] }

/-- A book whose ask ladder holds three levels. -/
def exBookAsks3 : OrderBook :=
  { symbol := "BTC/USD", max_levels := 10, bids := [(-100, 1)],
    asks := [(101, 1), (102, 2), (103, 3)] }

/-- A matching delta message whose second bid entry is malformed (its
price key is missing). -/
def exMsgBadEntry : MsgE :=
  { T := some "o", S := some "BTC/USD", t := some "ts8",
    b := some [{ p := some 100, s := some 2 }, { s := some 5 }] }

/-- A recorded snapshot with one level per side. -/
def exSnap : Snapshot :=
  { time := some "ts9",
    bids := [{ price := some 100, size := some 1 }],
    asks := [{ price := some 101, size := some 1 }] }

/-- A second recorded snapshot with different sizes. -/
def exSnap2 : Snapshot :=
  { time := some "ts10",
    bids := [{ price := some 100, size := some 4 }],
    asks := [{ price := some 101, size := some 4 }] }

/-- The wire reset frame carrying the same levels as `exSnap`. -/
def exWireReset : Msg :=
  { T := some "o", S := some "BTC/USD", t := some "ts9", r := some true,
    b := some [(100, 1)], a := some [(101, 1)] }

/-- A stream state at the start of a wait window. -/
def exStream : StreamState :=
  { symbol := "BTC/USD", order_book := OrderBook.init "BTC/USD" 10 }

instance (d : SDict) : Decidable (SDSorted d) := by
  unfold SDSorted
  infer_instance

instance (bk : OrderBook) : Decidable (WF bk) := by
  unfold WF
  infer_instance

instance (bk : OrderBook) : Decidable (SizesPos bk) := by
  unfold SizesPos
  infer_instance

section SDictLemmas

theorem sdGet_sdInsert (k : Price) (v : Size) (k' : Price) (d : SDict) :
    sdGet k' (sdInsert k v d) = if k' = k then some v else sdGet k' d := by
  induction d with
  | nil =>
    by_cases h : k' = k
    · simp [sdInsert, sdGet, h]
    · simp [sdInsert, sdGet, h, Ne.symm h]
  | cons e t ih =>
    by_cases h1 : k < e.1
    · by_cases h : k' = k
      · simp [sdInsert, if_pos h1, sdGet, h]
      · simp [sdInsert, if_pos h1, sdGet, h, Ne.symm h]
    · by_cases h2 : k = e.1
      · by_cases h : k' = k
        · simp [sdInsert, if_neg h1, if_pos h2, sdGet, h]
        · have he : ¬ (e.1 = k') := fun hh => (Ne.symm h) (h2.trans hh)
          simp [sdInsert, if_neg h1, if_pos h2, sdGet, h, Ne.symm h, he]
      · have hk : e.1 < k := lt_of_le_of_ne (not_lt.mp h1) fun hh => h2 hh.symm
        by_cases he : e.1 = k'
        · have hne : ¬ (k' = k) := fun hh => absurd (he.trans hh) (ne_of_lt hk)
          simp only [sdInsert, if_neg h1, if_neg h2]
          simp [sdGet, he, hne]
        · simp only [sdInsert, if_neg h1, if_neg h2]
          simp [sdGet, he, ih]

theorem sdErase_sublist (k : Price) (d : SDict) : (sdErase k d).Sublist d := by
  induction d with
  | nil => simp [sdErase]
  | cons e t ih =>
    by_cases h : e.1 = k
    · simp only [sdErase, if_pos h]
      exact List.sublist_cons_self e t
    · simp only [sdErase, if_neg h]
      exact List.Sublist.cons₂ e ih

theorem keys_nodup {d : SDict} (h : SDSorted d) : (d.map Prod.fst).Nodup := by
  have hp : (d.map Prod.fst).Pairwise (· < ·) := List.pairwise_map.mpr h
  exact hp.imp ne_of_lt

theorem sdGet_eq_none {k : Price} {d : SDict} (h : k ∉ d.map Prod.fst) :
    sdGet k d = none := by
  induction d with
  | nil => simp [sdGet]
  | cons e t ih =>
    rw [List.map_cons, List.mem_cons, not_or] at h
    have h1 : ¬ (e.1 = k) := fun hh => h.1 hh.symm
    simp [sdGet, h1, ih h.2]

theorem sdGet_sdErase {d : SDict} (hd : (d.map Prod.fst).Nodup)
    (k k' : Price) :
    sdGet k' (sdErase k d) = if k' = k then none else sdGet k' d := by
  induction d with
  | nil => simp [sdErase, sdGet]
  | cons e t ih =>
    rw [List.map_cons, List.nodup_cons] at hd
    by_cases h1 : e.1 = k
    · subst h1
      by_cases h2 : k' = e.1
      · subst h2
        simp [sdErase, sdGet_eq_none hd.1]
      · have h3 : ¬ (e.1 = k') := fun hh => h2 hh.symm
        simp [sdErase, sdGet, h2, h3]
    · by_cases h2 : e.1 = k'
      · have hne : ¬ (k' = k) := fun hh => h1 (h2.trans hh)
        simp [sdErase, sdGet, h1, h2, hne]
      · simp [sdErase, sdGet, h1, h2, ih hd.2]

theorem mem_sdInsert {x : Price × Size} {k : Price} {v : Size} {d : SDict}
    (h : x ∈ sdInsert k v d) : x = (k, v) ∨ x ∈ d := by
  induction d with
  | nil => simpa [sdInsert] using h
  | cons e t ih =>
    by_cases h1 : k < e.1
    · simp only [sdInsert, if_pos h1, List.mem_cons] at h
      rcases h with h | h | h
      · exact Or.inl h
      · exact Or.inr (by simp [h])
      · exact Or.inr (by simp [h])
    · by_cases h2 : k = e.1
      · simp only [sdInsert, if_neg h1, if_pos h2, List.mem_cons] at h
        rcases h with h | h
        · exact Or.inl h
        · exact Or.inr (by simp [h])
      · simp only [sdInsert, if_neg h1, if_neg h2, List.mem_cons] at h
        rcases h with h | h
        · exact Or.inr (by simp [h])
        · rcases ih h with h' | h'
          · exact Or.inl h'
          · exact Or.inr (by simp [h'])

theorem mem_sdErase {x : Price × Size} {k : Price} {d : SDict}
    (h : x ∈ sdErase k d) : x ∈ d :=
  (sdErase_sublist k d).subset h

theorem SDSorted_sdInsert {d : SDict} (h : SDSorted d) (k : Price) (v : Size) :
    SDSorted (sdInsert k v d) := by
  induction d with
  | nil => exact List.pairwise_singleton _ _
  | cons e t ih =>
    rcases List.pairwise_cons.mp h with ⟨he, ht⟩
    by_cases h1 : k < e.1
    · simp only [sdInsert, if_pos h1]
      refine List.Pairwise.cons ?_ h
      intro x hx
      rcases List.mem_cons.mp hx with hx | hx
      · rw [hx]; exact h1
      · exact lt_trans h1 (he x hx)
    · by_cases h2 : k = e.1
      · simp only [sdInsert, if_neg h1, if_pos h2]
        refine List.Pairwise.cons ?_ ht
        intro x hx
        exact h2 ▸ he x hx
      · have hk : e.1 < k := lt_of_le_of_ne (not_lt.mp h1) fun hh => h2 hh.symm
        simp only [sdInsert, if_neg h1, if_neg h2]
        refine List.Pairwise.cons ?_ (ih ht)
        intro x hx
        rcases mem_sdInsert hx with hx' | hx'
        · rw [hx']; exact hk
        · exact he x hx'

theorem SDSorted_sdErase {d : SDict} (h : SDSorted d) (k : Price) :
    SDSorted (sdErase k d) :=
  List.Pairwise.sublist (sdErase_sublist k d) h

end SDictLemmas

section SortLemmas

theorem insertSorted_append {le : α → α → Bool} {x : α} {m : List α}
    (h : ∀ y ∈ m, le x y = false) : insertSorted le x m = m ++ [x] := by
  induction m with
  | nil => rfl
  | cons y t ih =>
    have hy := h y (List.mem_cons_self y t)
    simp [insertSorted, hy, ih fun z hz => h z (List.mem_cons_of_mem y hz)]

theorem sortBy_eq_self {le : α → α → Bool} {l : List α}
    (h : l.Pairwise fun a b => le a b = true) : sortBy le l = l := by
  induction l with
  | nil => rfl
  | cons x t ih =>
    rcases List.pairwise_cons.mp h with ⟨hx, ht⟩
    have e1 : sortBy le (x :: t) = insertSorted le x (sortBy le t) := rfl
    rw [e1, ih ht]
    cases t with
    | nil => rfl
    | cons y t2 => simp [insertSorted, hx y (List.mem_cons_self y t2)]

theorem sortBy_eq_reverse {le : α → α → Bool} {l : List α}
    (h : l.Pairwise fun a b => le a b = false) : sortBy le l = l.reverse := by
  induction l with
  | nil => rfl
  | cons x t ih =>
    rcases List.pairwise_cons.mp h with ⟨hx, ht⟩
    have e1 : sortBy le (x :: t) = insertSorted le x (sortBy le t) := rfl
    rw [e1, ih ht, insertSorted_append fun y hy => hx y (List.mem_reverse.mp hy)]
    simp

theorem filter_mem_take (l : SDict) (j : ℕ) (hn : (l.map Prod.fst).Nodup) :
    (l.filter fun e => e.1 ∈ (l.take j).map Prod.fst) = l.take j := by
  induction l generalizing j with
  | nil => simp
  | cons x t ih =>
    cases j with
    | zero => simp
    | succ j' =>
      rw [List.map_cons, List.nodup_cons] at hn
      have hcong : ∀ y ∈ t,
          (decide (y.1 ∈ (((x :: t).take (j' + 1)).map Prod.fst)) : Bool)
          = decide (y.1 ∈ ((t.take j').map Prod.fst)) := by
        intro y hy
        have hne : ¬ (y.1 = x.1) :=
          fun hh => hn.1 (hh ▸ List.mem_map_of_mem Prod.fst hy)
        simp [List.take_succ_cons, hne]
      rw [List.filter_cons]
      have hx : (decide (x.1 ∈ (((x :: t).take (j' + 1)).map Prod.fst)) : Bool) = true := by
        simp [List.take_succ_cons]
      simp only [hx, if_pos]
      rw [List.filter_congr hcong, ih j' hn.2]
      simp [List.take_succ_cons]

theorem pyTake_map {β : Type} (f : Price × Size → β) (n : ℤ) (l : SDict) :
    pyTake n (l.map f) = (pyTake n l).map f := by
  simp [pyTake, List.length_map, List.map_take]

theorem pyTake_sublist (n : ℤ) (l : List α) : (pyTake n l).Sublist l :=
  List.take_sublist _ l

theorem length_pyTake_le {n : ℤ} (hn : 0 ≤ n) (l : List α) :
    (pyTake n l).length ≤ n.toNat := by
  simp only [pyTake, pyCount, if_pos hn, List.length_take]
  exact min_le_left _ _

theorem pyTake_zero (l : List α) : pyTake 0 l = [] := by
  simp [pyTake, pyCount]

end SortLemmas

section TrimLemmas

/-- On a well-formed book with both sides nonempty, the trim pass keeps
exactly the Python slice `[:max_levels]` of each ladder in stored order:
the highest-priced bids and the lowest-priced asks. -/
theorem trimBook_eq {bk : OrderBook} (hb : SDSorted bk.bids) (ha : SDSorted bk.asks)
    (hbne : bk.bids ≠ []) (hane : bk.asks ≠ []) :
    OrderBook.trimBook bk =
      { bk with bids := pyTake bk.max_levels bk.bids,
                asks := pyTake bk.max_levels bk.asks } := by
  have hsortb : sortBy (fun x y => decide (y.2.1 ≤ x.2.1))
      ((bk.bids.map fun e => (e.1, -e.1, e.2)).reverse)
      = bk.bids.map fun e => (e.1, -e.1, e.2) := by
    rw [sortBy_eq_reverse, List.reverse_reverse]
    rw [List.pairwise_reverse, List.pairwise_map]
    refine hb.imp ?_
    intro a b hab
    simp only [decide_eq_false_iff_not, not_le]
    exact neg_lt_neg hab
  have hsorta : sortBy (fun x y : Price × Size => decide (x.1 ≤ y.1)) bk.asks = bk.asks := by
    refine sortBy_eq_self (ha.imp ?_)
    intro a b hab
    simpa using le_of_lt hab
  have hkeepb : (pyTake bk.max_levels (bk.bids.map fun e => (e.1, -e.1, e.2))).map
      (fun x => x.1) = (pyTake bk.max_levels bk.bids).map Prod.fst := by
    rw [pyTake_map (fun e => (e.1, -e.1, e.2)) bk.max_levels bk.bids, List.map_map]
    rfl
  have hfiltb : (bk.bids.filter fun e =>
      e.1 ∈ (pyTake bk.max_levels bk.bids).map Prod.fst) = pyTake bk.max_levels bk.bids :=
    filter_mem_take bk.bids _ (keys_nodup hb)
  have hfilta : (bk.asks.filter fun e =>
      e.1 ∈ (pyTake bk.max_levels bk.asks).map Prod.fst) = pyTake bk.max_levels bk.asks :=
    filter_mem_take bk.asks _ (keys_nodup ha)
  unfold OrderBook.trimBook
  rw [if_neg (by simp [hbne, hane])]
  simp only [hsortb, hsorta, hkeepb, hfiltb, hfilta]

end TrimLemmas

section Preservation

theorem foldl_preserves {β γ : Type} {P : β → Prop} {f : β → γ → β}
    (hf : ∀ d x, P d → P (f d x)) :
    ∀ (l : List γ) {d : β}, P d → P (l.foldl f d)
  | [], _, h => h
  | x :: t, d, h => foldl_preserves hf t (hf d x h)

theorem foldl_preserves_mem {β γ : Type} {P : β → Prop} {f : β → γ → β} :
    ∀ (l : List γ) {d : β}, (∀ d x, x ∈ l → P d → P (f d x)) → P d → P (l.foldl f d)
  | [], _, _, h => h
  | x :: t, d, hf, h =>
    foldl_preserves_mem t
      (fun d2 y hy hp => hf d2 y (List.mem_cons_of_mem x hy) hp)
      (hf d x (List.mem_cons_self x t) h)

theorem SDSorted_bidStep {d : SDict} (h : SDSorted d) (u : Price × Size) :
    SDSorted (OrderBook.bidStep d u) := by
  by_cases h0 : u.2 = 0
  · simpa only [OrderBook.bidStep, if_pos h0] using SDSorted_sdErase h (-u.1)
  · simpa only [OrderBook.bidStep, if_neg h0] using SDSorted_sdInsert h (-u.1) u.2

theorem SDSorted_askStep {d : SDict} (h : SDSorted d) (u : Price × Size) :
    SDSorted (OrderBook.askStep d u) := by
  by_cases h0 : u.2 = 0
  · simpa only [OrderBook.askStep, if_pos h0] using SDSorted_sdErase h u.1
  · simpa only [OrderBook.askStep, if_neg h0] using SDSorted_sdInsert h u.1 u.2

theorem SDSorted_updateBids (l : List (Price × Size)) {d : SDict} (h : SDSorted d) :
    SDSorted (OrderBook.updateBids l d) := by
  unfold OrderBook.updateBids
  exact @foldl_preserves _ _ SDSorted OrderBook.bidStep
    (fun _ u hd => SDSorted_bidStep hd u) l d h

theorem SDSorted_updateAsks (l : List (Price × Size)) {d : SDict} (h : SDSorted d) :
    SDSorted (OrderBook.updateAsks l d) := by
  unfold OrderBook.updateAsks
  exact @foldl_preserves _ _ SDSorted OrderBook.askStep
    (fun _ u hd => SDSorted_askStep hd u) l d h

theorem SDSorted_resetLadderBids (l : List (Price × Size)) :
    SDSorted (OrderBook.resetLadderBids l) := by
  unfold OrderBook.resetLadderBids
  exact foldl_preserves
    (fun d e hd => by
      by_cases h0 : 0 < e.2
      · simpa only [if_pos h0] using SDSorted_sdInsert hd (-e.1) e.2
      · simpa only [if_neg h0] using hd)
    l List.Pairwise.nil

theorem SDSorted_resetLadderAsks (l : List (Price × Size)) :
    SDSorted (OrderBook.resetLadderAsks l) := by
  unfold OrderBook.resetLadderAsks
  exact foldl_preserves
    (fun d e hd => by
      by_cases h0 : 0 < e.2
      · simpa only [if_pos h0] using SDSorted_sdInsert hd e.1 e.2
      · simpa only [if_neg h0] using hd)
    l List.Pairwise.nil

theorem WF_applyBody {bk : OrderBook} (h : WF bk) (m : Msg) :
    WF (OrderBook.applyBody bk m) := by
  unfold OrderBook.applyBody
  by_cases hr : m.r.getD false
  · simp only [if_pos hr]
    exact ⟨SDSorted_resetLadderBids _, SDSorted_resetLadderAsks _⟩
  · simp only [if_neg hr]
    rcases m.b with _ | lb <;> rcases m.a with _ | la
    · exact h
    · by_cases hla : la = [] <;> simp only [hla, if_pos, if_neg, reduceIte]
      · exact h
      · exact ⟨h.1, SDSorted_updateAsks la h.2⟩
    · by_cases hlb : lb = [] <;> simp only [hlb, reduceIte]
      · exact h
      · exact ⟨SDSorted_updateBids lb h.1, h.2⟩
    · by_cases hlb : lb = [] <;> by_cases hla : la = [] <;>
        simp only [hlb, hla, reduceIte]
      · exact h
      · exact ⟨h.1, SDSorted_updateAsks la h.2⟩
      · exact ⟨SDSorted_updateBids lb h.1, h.2⟩
      · exact ⟨SDSorted_updateBids lb h.1, SDSorted_updateAsks la h.2⟩

theorem WF_trimBook {bk : OrderBook} (h : WF bk) : WF (OrderBook.trimBook bk) := by
  unfold OrderBook.trimBook
  by_cases he : bk.bids = [] ∨ bk.asks = []
  · simpa only [if_pos he] using h
  · simp only [if_neg he]
    exact ⟨List.Pairwise.sublist (List.filter_sublist _) h.1,
           List.Pairwise.sublist (List.filter_sublist _) h.2⟩

theorem WF_update {bk : OrderBook} (h : WF bk) (m : Msg) :
    WF (OrderBook.update bk m) := by
  unfold OrderBook.update
  by_cases hT : m.T ≠ some "o"
  · simpa only [if_pos hT] using h
  · simp only [if_neg hT]
    by_cases hS : m.S ≠ some bk.symbol
    · simpa only [if_pos hS] using h
    · simp only [if_neg hS]
      exact WF_trimBook (WF_applyBody h m)

theorem applyBody_symbol (bk : OrderBook) (m : Msg) :
    (OrderBook.applyBody bk m).symbol = bk.symbol := by
  unfold OrderBook.applyBody OrderBook.resetBook
  rcases m.b with _ | lb <;> rcases m.a with _ | la <;>
    by_cases hr : m.r.getD false <;> simp only [hr, reduceIte] <;>
      split_ifs <;> rfl

theorem applyBody_max_levels (bk : OrderBook) (m : Msg) :
    (OrderBook.applyBody bk m).max_levels = bk.max_levels := by
  unfold OrderBook.applyBody OrderBook.resetBook
  rcases m.b with _ | lb <;> rcases m.a with _ | la <;>
    by_cases hr : m.r.getD false <;> simp only [hr, reduceIte] <;>
      split_ifs <;> rfl

theorem trimBook_symbol (bk : OrderBook) :
    (OrderBook.trimBook bk).symbol = bk.symbol := by
  unfold OrderBook.trimBook
  split <;> rfl

theorem trimBook_max_levels (bk : OrderBook) :
    (OrderBook.trimBook bk).max_levels = bk.max_levels := by
  unfold OrderBook.trimBook
  split <;> rfl

theorem update_symbol (bk : OrderBook) (m : Msg) :
    (OrderBook.update bk m).symbol = bk.symbol := by
  unfold OrderBook.update
  split
  · rfl
  · split
    · rfl
    · rw [trimBook_symbol, applyBody_symbol]

theorem update_max_levels (bk : OrderBook) (m : Msg) :
    (OrderBook.update bk m).max_levels = bk.max_levels := by
  unfold OrderBook.update
  split
  · rfl
  · split
    · rfl
    · rw [trimBook_max_levels, applyBody_max_levels]

end Preservation

section LastWrite

theorem sdGet_updateBids (p : Price) :
    ∀ (l : List (Price × Size)) {d : SDict}, SDSorted d →
      sdGet (-p) (OrderBook.updateBids l d) =
        (match lastSize p l with
         | some s => if s = 0 then none else some s
         | none => sdGet (-p) d)
  | [], _, _ => rfl
  | u :: t, d, hd => by
    have hstep : SDSorted (OrderBook.bidStep d u) := SDSorted_bidStep hd u
    have ih := sdGet_updateBids p t hstep
    have e1 : OrderBook.updateBids (u :: t) d
        = OrderBook.updateBids t (OrderBook.bidStep d u) := rfl
    rw [e1, ih]
    cases ht : lastSize p t with
    | some s => simp [lastSize, ht]
    | none =>
      simp only [lastSize, ht]
      by_cases hu : u.1 = p
      · by_cases h0 : u.2 = 0
        · simp only [OrderBook.bidStep, if_pos h0]
          rw [sdGet_sdErase (keys_nodup hd)]
          simp [hu, h0]
        · simp only [OrderBook.bidStep, if_neg h0]
          rw [sdGet_sdInsert]
          simp [hu, h0]
      · have hne : ¬ (-p = -u.1) := fun hh => hu (neg_injective hh).symm
        by_cases h0 : u.2 = 0
        · simp only [OrderBook.bidStep, if_pos h0]
          rw [sdGet_sdErase (keys_nodup hd)]
          simp [hne, hu]
        · simp only [OrderBook.bidStep, if_neg h0]
          rw [sdGet_sdInsert]
          simp [hne, hu]

theorem sdGet_updateAsks (p : Price) :
    ∀ (l : List (Price × Size)) {d : SDict}, SDSorted d →
      sdGet p (OrderBook.updateAsks l d) =
        (match lastSize p l with
         | some s => if s = 0 then none else some s
         | none => sdGet p d)
  | [], _, _ => rfl
  | u :: t, d, hd => by
    have hstep : SDSorted (OrderBook.askStep d u) := SDSorted_askStep hd u
    have ih := sdGet_updateAsks p t hstep
    have e1 : OrderBook.updateAsks (u :: t) d
        = OrderBook.updateAsks t (OrderBook.askStep d u) := rfl
    rw [e1, ih]
    cases ht : lastSize p t with
    | some s => simp [lastSize, ht]
    | none =>
      simp only [lastSize, ht]
      by_cases hu : u.1 = p
      · by_cases h0 : u.2 = 0
        · simp only [OrderBook.askStep, if_pos h0]
          rw [sdGet_sdErase (keys_nodup hd)]
          simp [hu, h0]
        · simp only [OrderBook.askStep, if_neg h0]
          rw [sdGet_sdInsert]
          simp [hu, h0]
      · have hne : ¬ (p = u.1) := fun hh => hu hh.symm
        by_cases h0 : u.2 = 0
        · simp only [OrderBook.askStep, if_pos h0]
          rw [sdGet_sdErase (keys_nodup hd)]
          simp [hne, hu]
        · simp only [OrderBook.askStep, if_neg h0]
          rw [sdGet_sdInsert]
          simp [hne, hu]

theorem lastSize_append (p : Price) (l1 l2 : List (Price × Size)) :
    lastSize p (l1 ++ l2) =
      (match lastSize p l2 with
       | some s => some s
       | none => lastSize p l1) := by
  induction l1 with
  | nil =>
    rw [List.nil_append]
    cases h : lastSize p l2 <;> rfl
  | cons u t ih =>
    simp only [List.cons_append, lastSize, List.append_eq]
    rw [ih]
    cases h2 : lastSize p l2 <;> cases h3 : lastSize p t <;> rfl

end LastWrite

section Positivity

theorem pos_bidStep {d : SDict} (hd : ∀ e ∈ d, 0 < e.2) {u : Price × Size}
    (hu : 0 ≤ u.2) : ∀ e ∈ OrderBook.bidStep d u, 0 < e.2 := by
  intro e he
  by_cases h0 : u.2 = 0
  · simp only [OrderBook.bidStep, if_pos h0] at he
    exact hd e (mem_sdErase he)
  · simp only [OrderBook.bidStep, if_neg h0] at he
    rcases mem_sdInsert he with h | h
    · rw [h]
      exact lt_of_le_of_ne hu (Ne.symm h0)
    · exact hd e h

theorem pos_askStep {d : SDict} (hd : ∀ e ∈ d, 0 < e.2) {u : Price × Size}
    (hu : 0 ≤ u.2) : ∀ e ∈ OrderBook.askStep d u, 0 < e.2 := by
  intro e he
  by_cases h0 : u.2 = 0
  · simp only [OrderBook.askStep, if_pos h0] at he
    exact hd e (mem_sdErase he)
  · simp only [OrderBook.askStep, if_neg h0] at he
    rcases mem_sdInsert he with h | h
    · rw [h]
      exact lt_of_le_of_ne hu (Ne.symm h0)
    · exact hd e h

theorem pos_updateBids (l : List (Price × Size)) (hl : ∀ u ∈ l, 0 ≤ u.2)
    {d : SDict} (hd : ∀ e ∈ d, 0 < e.2) :
    ∀ e ∈ OrderBook.updateBids l d, 0 < e.2 := by
  unfold OrderBook.updateBids
  exact @foldl_preserves_mem _ _ (fun d2 => ∀ e ∈ d2, 0 < e.2) OrderBook.bidStep
    l d (fun _ u hu hp => pos_bidStep hp (hl u hu)) hd

theorem pos_updateAsks (l : List (Price × Size)) (hl : ∀ u ∈ l, 0 ≤ u.2)
    {d : SDict} (hd : ∀ e ∈ d, 0 < e.2) :
    ∀ e ∈ OrderBook.updateAsks l d, 0 < e.2 := by
  unfold OrderBook.updateAsks
  exact @foldl_preserves_mem _ _ (fun d2 => ∀ e ∈ d2, 0 < e.2) OrderBook.askStep
    l d (fun _ u hu hp => pos_askStep hp (hl u hu)) hd

theorem pos_resetLadderBids (l : List (Price × Size)) :
    ∀ e ∈ OrderBook.resetLadderBids l, 0 < e.2 := by
  unfold OrderBook.resetLadderBids
  refine @foldl_preserves SDict (Price × Size)
    (fun d2 => ∀ e ∈ d2, 0 < e.2) _ ?_ l [] (by simp)
  intro d2 x hp e he
  by_cases h0 : 0 < x.2
  · rw [if_pos h0] at he
    rcases mem_sdInsert he with h | h
    · rw [h]; exact h0
    · exact hp e h
  · rw [if_neg h0] at he
    exact hp e he

theorem pos_resetLadderAsks (l : List (Price × Size)) :
    ∀ e ∈ OrderBook.resetLadderAsks l, 0 < e.2 := by
  unfold OrderBook.resetLadderAsks
  refine @foldl_preserves SDict (Price × Size)
    (fun d2 => ∀ e ∈ d2, 0 < e.2) _ ?_ l [] (by simp)
  intro d2 x hp e he
  by_cases h0 : 0 < x.2
  · rw [if_pos h0] at he
    rcases mem_sdInsert he with h | h
    · rw [h]; exact h0
    · exact hp e h
  · rw [if_neg h0] at he
    exact hp e he

theorem SizesPos_applyBody {bk : OrderBook} (h : SizesPos bk) {m : Msg}
    (hm : deltaSizesNonneg m = true) : SizesPos (OrderBook.applyBody bk m) := by
  unfold OrderBook.applyBody OrderBook.resetBook
  by_cases hr : m.r.getD false
  · simp only [if_pos hr]
    exact ⟨pos_resetLadderBids _, pos_resetLadderAsks _⟩
  · simp only [if_neg hr]
    unfold deltaSizesNonneg at hm
    rw [if_neg hr, Bool.and_eq_true] at hm
    have hb : ∀ u ∈ m.b.getD [], 0 ≤ u.2 := by
      intro u hu
      have := List.all_eq_true.mp hm.1 u hu
      exact of_decide_eq_true this
    have ha : ∀ u ∈ m.a.getD [], 0 ≤ u.2 := by
      intro u hu
      have := List.all_eq_true.mp hm.2 u hu
      exact of_decide_eq_true this
    rcases hmb : m.b with _ | lb <;> rcases hma : m.a with _ | la <;>
      simp only [] <;> (try split_ifs) <;>
        first
        | exact h
        | exact ⟨h.1, pos_updateAsks la (by rw [hma] at ha; simpa using ha) h.2⟩
        | exact ⟨pos_updateBids lb (by rw [hmb] at hb; simpa using hb) h.1, h.2⟩
        | exact ⟨pos_updateBids lb (by rw [hmb] at hb; simpa using hb) h.1,
                 pos_updateAsks la (by rw [hma] at ha; simpa using ha) h.2⟩

theorem SizesPos_trimBook {bk : OrderBook} (h : SizesPos bk) :
    SizesPos (OrderBook.trimBook bk) := by
  unfold OrderBook.trimBook
  by_cases he : bk.bids = [] ∨ bk.asks = []
  · simpa only [if_pos he] using h
  · simp only [if_neg he]
    exact ⟨fun e hee => h.1 e ((List.filter_sublist _).subset hee),
           fun e hee => h.2 e ((List.filter_sublist _).subset hee)⟩

theorem SizesPos_update {bk : OrderBook} (h : SizesPos bk) {m : Msg}
    (hm : deltaSizesNonneg m = true) : SizesPos (OrderBook.update bk m) := by
  unfold OrderBook.update
  split
  · exact h
  · split
    · exact h
    · exact SizesPos_trimBook (SizesPos_applyBody h hm)

end Positivity

section LiftLemmas

theorem updateBidsE_lift :
    ∀ (l : List (Price × Size)) (d : SDict),
      OrderBook.updateBidsE (l.map liftEntry) d = (OrderBook.updateBids l d, none)
  | [], _ => rfl
  | u :: t, d => by
    have e1 : OrderBook.updateBidsE ((u :: t).map liftEntry) d
        = OrderBook.updateBidsE (t.map liftEntry)
            (if u.2 = 0 then sdErase (-u.1) d else sdInsert (-u.1) u.2 d) := rfl
    rw [e1, updateBidsE_lift t]
    rfl

theorem updateAsksE_lift :
    ∀ (l : List (Price × Size)) (d : SDict),
      OrderBook.updateAsksE (l.map liftEntry) d = (OrderBook.updateAsks l d, none)
  | [], _ => rfl
  | u :: t, d => by
    have e1 : OrderBook.updateAsksE ((u :: t).map liftEntry) d
        = OrderBook.updateAsksE (t.map liftEntry)
            (if u.2 = 0 then sdErase u.1 d else sdInsert u.1 u.2 d) := rfl
    rw [e1, updateAsksE_lift t]
    rfl

theorem resetBidsE_lift :
    ∀ (l : List (Price × Size)) (d : SDict),
      OrderBook.resetBidsE (l.map liftEntry) d =
        (l.foldl (fun d2 e => if 0 < e.2 then sdInsert (-e.1) e.2 d2 else d2) d, none)
  | [], _ => rfl
  | u :: t, d => by
    by_cases h0 : 0 < u.2
    · have e1 : OrderBook.resetBidsE ((u :: t).map liftEntry) d
          = OrderBook.resetBidsE (t.map liftEntry) (sdInsert (-u.1) u.2 d) := by
        show (if 0 < u.2 then OrderBook.resetBidsE (t.map liftEntry) (sdInsert (-u.1) u.2 d)
              else OrderBook.resetBidsE (t.map liftEntry) d) = _
        rw [if_pos h0]
      rw [e1, resetBidsE_lift t]
      have e2 : (u :: t).foldl (fun d2 e => if 0 < e.2 then sdInsert (-e.1) e.2 d2 else d2) d
          = t.foldl (fun d2 e => if 0 < e.2 then sdInsert (-e.1) e.2 d2 else d2)
              (sdInsert (-u.1) u.2 d) := by
        rw [List.foldl_cons, if_pos h0]
      rw [e2]
    · have e1 : OrderBook.resetBidsE ((u :: t).map liftEntry) d
          = OrderBook.resetBidsE (t.map liftEntry) d := by
        show (if 0 < u.2 then OrderBook.resetBidsE (t.map liftEntry) (sdInsert (-u.1) u.2 d)
              else OrderBook.resetBidsE (t.map liftEntry) d) = _
        rw [if_neg h0]
      rw [e1, resetBidsE_lift t]
      have e2 : (u :: t).foldl (fun d2 e => if 0 < e.2 then sdInsert (-e.1) e.2 d2 else d2) d
          = t.foldl (fun d2 e => if 0 < e.2 then sdInsert (-e.1) e.2 d2 else d2) d := by
        rw [List.foldl_cons, if_neg h0]
      rw [e2]

theorem resetAsksE_lift :
    ∀ (l : List (Price × Size)) (d : SDict),
      OrderBook.resetAsksE (l.map liftEntry) d =
        (l.foldl (fun d2 e => if 0 < e.2 then sdInsert e.1 e.2 d2 else d2) d, none)
  | [], _ => rfl
  | u :: t, d => by
    by_cases h0 : 0 < u.2
    · have e1 : OrderBook.resetAsksE ((u :: t).map liftEntry) d
          = OrderBook.resetAsksE (t.map liftEntry) (sdInsert u.1 u.2 d) := by
        show (if 0 < u.2 then OrderBook.resetAsksE (t.map liftEntry) (sdInsert u.1 u.2 d)
              else OrderBook.resetAsksE (t.map liftEntry) d) = _
        rw [if_pos h0]
      rw [e1, resetAsksE_lift t]
      have e2 : (u :: t).foldl (fun d2 e => if 0 < e.2 then sdInsert e.1 e.2 d2 else d2) d
          = t.foldl (fun d2 e => if 0 < e.2 then sdInsert e.1 e.2 d2 else d2)
              (sdInsert u.1 u.2 d) := by
        rw [List.foldl_cons, if_pos h0]
      rw [e2]
    · have e1 : OrderBook.resetAsksE ((u :: t).map liftEntry) d
          = OrderBook.resetAsksE (t.map liftEntry) d := by
        show (if 0 < u.2 then OrderBook.resetAsksE (t.map liftEntry) (sdInsert u.1 u.2 d)
              else OrderBook.resetAsksE (t.map liftEntry) d) = _
        rw [if_neg h0]
      rw [e1, resetAsksE_lift t]
      have e2 : (u :: t).foldl (fun d2 e => if 0 < e.2 then sdInsert e.1 e.2 d2 else d2) d
          = t.foldl (fun d2 e => if 0 < e.2 then sdInsert e.1 e.2 d2 else d2) d := by
        rw [List.foldl_cons, if_neg h0]
      rw [e2]

theorem optMap_getD (o : Option (List (Price × Size))) :
    (Option.map (List.map liftEntry) o).getD [] = (o.getD []).map liftEntry := by
  cases o <;> rfl

/-- On a message whose entries are all well formed, the exception-aware
update completes without error and computes exactly `OrderBook.update`. -/
theorem updateE_lift (bk : OrderBook) (m : Msg) :
    OrderBook.updateE bk (liftMsg m) = (OrderBook.update bk m, none) := by
  unfold OrderBook.updateE OrderBook.update OrderBook.applyBody OrderBook.resetBook
  by_cases hT : m.T ≠ some "o"
  · simp [liftMsg, hT]
  · by_cases hS : m.S ≠ some bk.symbol
    · simp [liftMsg, hT, hS]
    · have hTl : ¬ ((liftMsg m).T ≠ some "o") := hT
      have hSl : ¬ ((liftMsg m).S ≠ some bk.symbol) := hS
      rw [if_neg hTl, if_neg hSl, if_neg hT, if_neg hS]
      by_cases hr : m.r.getD false
      · have hrl : (liftMsg m).r.getD false = true := hr
        simp only [hrl, hr, if_pos, liftMsg]
        rw [optMap_getD, optMap_getD, resetBidsE_lift, resetAsksE_lift]
        rfl
      · have hrl : ¬ ((liftMsg m).r.getD false = true) := hr
        simp only [hrl, hr, reduceIte, Bool.false_eq_true, liftMsg]
        rcases hmb : m.b with _ | lb <;> rcases hma : m.a with _ | la <;>
          simp only [Option.map_none', Option.map_some']
        · by_cases hla : la = [] <;>
            simp [hla, updateAsksE_lift, List.map_eq_nil_iff]
        · by_cases hlb : lb = [] <;>
            simp [hlb, updateBidsE_lift, List.map_eq_nil_iff]
        · by_cases hlb : lb = [] <;> by_cases hla : la = [] <;>
            simp [hlb, hla, updateBidsE_lift, updateAsksE_lift, List.map_eq_nil_iff]

/-- A delta entry whose `'p'` key is missing aborts `_update_bids` with a
`KeyError`, keeping only the well-formed entries before it. -/
theorem updateBidsE_partial {bad : EntryE} (hbad : bad.p = none) :
    ∀ (good : List (Price × Size)) (rest : List EntryE) (d : SDict),
      OrderBook.updateBidsE (good.map liftEntry ++ bad :: rest) d =
        (OrderBook.updateBids good d, some "KeyError: p")
  | [], rest, d => by
    rw [List.map_nil, List.nil_append]
    unfold OrderBook.updateBidsE
    rw [hbad]
    rfl
  | u :: t, rest, d => by
    rw [List.map_cons, List.cons_append]
    have e1 : OrderBook.updateBidsE (liftEntry u :: (t.map liftEntry ++ bad :: rest)) d
        = OrderBook.updateBidsE (t.map liftEntry ++ bad :: rest)
            (if u.2 = 0 then sdErase (-u.1) d else sdInsert (-u.1) u.2 d) := rfl
    rw [e1, updateBidsE_partial hbad t rest]
    rfl

end LiftLemmas

section QueryLemmas

theorem sdGet_of_mem {d : SDict} (h : SDSorted d) {e : Price × Size} (he : e ∈ d) :
    sdGet e.1 d = some e.2 := by
  induction d with
  | nil => cases he
  | cons x t ih =>
    rcases List.pairwise_cons.mp h with ⟨hx, ht⟩
    rcases List.mem_cons.mp he with he' | he'
    · rw [he']
      simp [sdGet]
    · have hne : ¬ (x.1 = e.1) := ne_of_lt (hx e he')
      simp only [sdGet, hne, if_neg]
      exact ih ht he'

theorem getBids_eq (bk : OrderBook) (n : ℤ) :
    OrderBook.getBids bk (some n) = (pyTake n bk.bids).map (fun e => (-e.1, e.2)) := rfl

theorem getAsks_eq {bk : OrderBook} (ha : SDSorted bk.asks) (n : ℤ) :
    OrderBook.getAsks bk (some n) = pyTake n bk.asks.reverse := by
  have e0 : OrderBook.getAsks bk (some n)
      = (pyTake n (sortBy (fun x y : Price => decide (y ≤ x))
          (bk.asks.map fun e => e.1))).map
            (fun p => (p, (sdGet p bk.asks).getD 0)) := rfl
  have hsort : sortBy (fun x y : Price => decide (y ≤ x)) (bk.asks.map fun e => e.1)
      = (bk.asks.map fun e => e.1).reverse := by
    refine sortBy_eq_reverse ?_
    rw [List.pairwise_map]
    refine ha.imp ?_
    intro a b hab
    simpa using not_le.mpr hab
  rw [e0, hsort, ← List.map_reverse, pyTake_map (fun e => e.1) n bk.asks.reverse]
  have h1 : ((pyTake n bk.asks.reverse).map fun e : Price × Size => e.1).map
        (fun p => (p, (sdGet p bk.asks).getD 0))
      = (pyTake n bk.asks.reverse).map
          (fun e => (e.1, (sdGet e.1 bk.asks).getD 0)) := by
    rw [List.map_map]
    rfl
  rw [h1]
  have h2 : ∀ e ∈ pyTake n bk.asks.reverse,
      (e.1, (sdGet e.1 bk.asks).getD 0) = e := by
    intro e he
    have hmem : e ∈ bk.asks :=
      List.mem_reverse.mp ((pyTake_sublist n bk.asks.reverse).subset he)
    rw [sdGet_of_mem ha hmem]
    exact Prod.mk.eta
  calc (pyTake n bk.asks.reverse).map (fun e => (e.1, (sdGet e.1 bk.asks).getD 0))
      = (pyTake n bk.asks.reverse).map id := List.map_congr_left h2
    _ = pyTake n bk.asks.reverse := List.map_id _

theorem getBids_pairwise {bk : OrderBook} (hb : SDSorted bk.bids) (n : ℤ) :
    (OrderBook.getBids bk (some n)).Pairwise (fun x y => y.1 < x.1) := by
  rw [getBids_eq]
  rw [List.pairwise_map]
  have h1 : (pyTake n bk.bids).Pairwise (fun a b => a.1 < b.1) :=
    List.Pairwise.sublist (pyTake_sublist n bk.bids) hb
  exact h1.imp fun hab => by simpa using hab

theorem getAsks_pairwise {bk : OrderBook} (ha : SDSorted bk.asks) (n : ℤ) :
    (OrderBook.getAsks bk (some n)).Pairwise (fun x y => y.1 < x.1) := by
  rw [getAsks_eq ha]
  have h1 : bk.asks.reverse.Pairwise (fun a b : Price × Size => b.1 < a.1) :=
    List.pairwise_reverse.mpr ha
  exact List.Pairwise.sublist (pyTake_sublist n bk.asks.reverse) h1

end QueryLemmas

section UpdateStructure

theorem update_eq_of_ok {bk : OrderBook} {m : Msg}
    (hT : m.T = some "o") (hS : m.S = some bk.symbol) :
    OrderBook.update bk m = OrderBook.trimBook (OrderBook.applyBody bk m) := by
  unfold OrderBook.update
  rw [if_neg (by simp [hT]), if_neg (by simp [hS])]

theorem applyBody_reset (bk : OrderBook) (m : Msg) (hr : m.r.getD false = true) :
    (OrderBook.applyBody bk m).bids = OrderBook.resetLadderBids (m.b.getD []) ∧
    (OrderBook.applyBody bk m).asks = OrderBook.resetLadderAsks (m.a.getD []) := by
  unfold OrderBook.applyBody OrderBook.resetBook
  rw [if_pos hr]
  exact ⟨rfl, rfl⟩

theorem applyBody_delta (bk : OrderBook) (m : Msg) (hr : m.r.getD false = false) :
    (OrderBook.applyBody bk m).bids = OrderBook.updateBids (m.b.getD []) bk.bids ∧
    (OrderBook.applyBody bk m).asks = OrderBook.updateAsks (m.a.getD []) bk.asks := by
  unfold OrderBook.applyBody
  rw [hr]
  rcases m.b with _ | lb <;> rcases m.a with _ | la <;>
    simp only [Bool.false_eq_true, reduceIte, Option.getD_some, Option.getD_none]
  · exact ⟨rfl, rfl⟩
  · by_cases hla : la = [] <;>
      simp [hla, OrderBook.updateBids, OrderBook.updateAsks]
  · by_cases hlb : lb = [] <;>
      simp [hlb, OrderBook.updateBids, OrderBook.updateAsks]
  · by_cases hlb : lb = [] <;> by_cases hla : la = [] <;>
      simp [hlb, hla, OrderBook.updateBids, OrderBook.updateAsks]

/-- After any matching update on a positive `max_levels` book, a side that
ends up nonempty respects the `max_levels` bound whenever the other side
is nonempty too (that is, whenever the trim pass actually ran). -/
theorem update_bound_step {bk : OrderBook} (hwf : WF bk) (hml : 0 < bk.max_levels)
    (hP : bk.bids ≠ [] → bk.asks ≠ [] →
      bk.bids.length ≤ bk.max_levels.toNat ∧ bk.asks.length ≤ bk.max_levels.toNat)
    (m : Msg) :
    (OrderBook.update bk m).bids ≠ [] → (OrderBook.update bk m).asks ≠ [] →
    (OrderBook.update bk m).bids.length ≤ bk.max_levels.toNat ∧
    (OrderBook.update bk m).asks.length ≤ bk.max_levels.toNat := by
  unfold OrderBook.update
  split
  · exact hP
  · split
    · exact hP
    · intro hb ha
      by_cases hemp : (OrderBook.applyBody bk m).bids = [] ∨ (OrderBook.applyBody bk m).asks = []
      · have hid : OrderBook.trimBook (OrderBook.applyBody bk m) = OrderBook.applyBody bk m := by
          unfold OrderBook.trimBook
          rw [if_pos hemp]
        rw [hid] at hb ha
        rcases hemp with h | h
        · exact absurd h hb
        · exact absurd h ha
      · push_neg at hemp
        have hwfa := WF_applyBody hwf m
        rw [trimBook_eq hwfa.1 hwfa.2 hemp.1 hemp.2]
        have hmla : (OrderBook.applyBody bk m).max_levels = bk.max_levels :=
          applyBody_max_levels bk m
        constructor
        · simpa [hmla] using
            length_pyTake_le (le_of_lt (hmla ▸ hml)) (OrderBook.applyBody bk m).bids
        · simpa [hmla] using
            length_pyTake_le (le_of_lt (hmla ▸ hml)) (OrderBook.applyBody bk m).asks

theorem levelBound_trace :
    ∀ (msgs : List Msg) (bk : OrderBook), WF bk → 0 < bk.max_levels →
      (bk.bids ≠ [] → bk.asks ≠ [] →
        bk.bids.length ≤ bk.max_levels.toNat ∧ bk.asks.length ≤ bk.max_levels.toNat) →
      ((applyTrace bk msgs).bids ≠ [] → (applyTrace bk msgs).asks ≠ [] →
        (applyTrace bk msgs).bids.length ≤ bk.max_levels.toNat ∧
        (applyTrace bk msgs).asks.length ≤ bk.max_levels.toNat)
  | [], _, _, _, hP => hP
  | m :: ms, bk, hwf, hml, hP => by
    have e1 : applyTrace bk (m :: ms) = applyTrace (OrderBook.update bk m) ms := rfl
    rw [e1]
    have hml2 : 0 < (OrderBook.update bk m).max_levels := by
      rw [update_max_levels]
      exact hml
    have heq : (OrderBook.update bk m).max_levels = bk.max_levels := update_max_levels bk m
    have hP2 := update_bound_step hwf hml hP m
    rw [← heq]
    refine levelBound_trace ms (OrderBook.update bk m) (WF_update hwf m) hml2 ?_
    rw [heq]
    exact hP2

end UpdateStructure

section ReaderLemmas

theorem readerFold_asks :
    ∀ (l : List (Price × Size)) (d : SDict),
      (∀ e ∈ l, e.1 ≠ 0 ∧ 0 < e.2) →
      List.foldl readerAskStep d (l.map fun e => SnapEntry.mk (some e.1) (some e.2))
        = l.foldl (fun d2 e => if 0 < e.2 then sdInsert e.1 e.2 d2 else d2) d
  | [], _, _ => rfl
  | u :: t, d, h => by
    have hu := h u (List.mem_cons_self u t)
    have e1 : readerAskStep d (SnapEntry.mk (some u.1) (some u.2)) = sdInsert u.1 u.2 d := by
      unfold readerAskStep truthyQ
      simp [hu.1, ne_of_gt hu.2]
    rw [List.map_cons, List.foldl_cons, List.foldl_cons, e1, if_pos hu.2]
    exact readerFold_asks t _ fun e he => h e (List.mem_cons_of_mem u he)

end ReaderLemmas

section TraceLemmas

/-- Last-write-wins along a trace of matching delta messages on which the
trim pass never evicts: on each side, the stored size at a price is the
size of the last delta entry naming it (absent when that size is `0`),
and is untouched when no delta names it. -/
theorem lastWrite_trace :
    ∀ (msgs : List Msg) (bk : OrderBook), WF bk →
      (∀ m ∈ msgs, deltaMsgOK bk.symbol m = true) →
      trimFree bk msgs = true →
      ∀ p : Price,
        sdGet (-p) (applyTrace bk msgs).bids =
          (match lastSize p (msgs.flatMap fun m2 => m2.b.getD []) with
           | some s => if s = 0 then none else some s
           | none => sdGet (-p) bk.bids) ∧
        sdGet p (applyTrace bk msgs).asks =
          (match lastSize p (msgs.flatMap fun m2 => m2.a.getD []) with
           | some s => if s = 0 then none else some s
           | none => sdGet p bk.asks)
  | [], _, _, _, _, _ => ⟨rfl, rfl⟩
  | m :: ms, bk, hwf, hall, htf, p => by
    have hd := hall m (List.mem_cons_self m ms)
    unfold deltaMsgOK at hd
    rw [Bool.and_eq_true, Bool.and_eq_true] at hd
    have hT : m.T = some "o" := of_decide_eq_true hd.1.1
    have hS : m.S = some bk.symbol := of_decide_eq_true hd.1.2
    have hr : m.r.getD false = false := (Bool.not_eq_true' _) ▸ hd.2
    unfold trimFree at htf
    rw [Bool.and_eq_true] at htf
    have htrim : OrderBook.trimBook (OrderBook.applyBody bk m) = OrderBook.applyBody bk m :=
      of_decide_eq_true htf.1
    have hupd : OrderBook.update bk m = OrderBook.applyBody bk m := by
      rw [update_eq_of_ok hT hS, htrim]
    have hbody := applyBody_delta bk m hr
    have hwf2 : WF (OrderBook.update bk m) := WF_update hwf m
    have hall2 : ∀ m2 ∈ ms, deltaMsgOK (OrderBook.update bk m).symbol m2 = true := by
      intro m2 hm2
      rw [update_symbol]
      exact hall m2 (List.mem_cons_of_mem m hm2)
    have ih := lastWrite_trace ms (OrderBook.update bk m) hwf2 hall2 htf.2 p
    have e1 : applyTrace bk (m :: ms) = applyTrace (OrderBook.update bk m) ms := rfl
    rw [e1]
    rcases ih with ⟨ihb, iha⟩
    constructor
    · rw [ihb]
      have e2 : ((m :: ms).flatMap fun m2 => m2.b.getD [])
          = (m.b.getD []) ++ (ms.flatMap fun m2 => m2.b.getD []) :=
        List.flatMap_cons m ms _
      rw [e2, lastSize_append]
      have e3 : sdGet (-p) (OrderBook.update bk m).bids
          = (match lastSize p (m.b.getD []) with
             | some s => if s = 0 then none else some s
             | none => sdGet (-p) bk.bids) := by
        rw [hupd, hbody.1]
        exact sdGet_updateBids p (m.b.getD []) hwf.1
      cases h1 : lastSize p (ms.flatMap fun m2 => m2.b.getD []) <;>
        cases h2 : lastSize p (m.b.getD []) <;>
          simp only [h1, h2, e3]
    · rw [iha]
      have e2 : ((m :: ms).flatMap fun m2 => m2.a.getD [])
          = (m.a.getD []) ++ (ms.flatMap fun m2 => m2.a.getD []) :=
        List.flatMap_cons m ms _
      rw [e2, lastSize_append]
      have e3 : sdGet p (OrderBook.update bk m).asks
          = (match lastSize p (m.a.getD []) with
             | some s => if s = 0 then none else some s
             | none => sdGet p bk.asks) := by
        rw [hupd, hbody.2]
        exact sdGet_updateAsks p (m.a.getD []) hwf.2
      cases h1 : lastSize p (ms.flatMap fun m2 => m2.a.getD []) <;>
        cases h2 : lastSize p (m.a.getD []) <;>
          simp only [h1, h2, e3]

end TraceLemmas

/-! ### Claim theorems -/

/-- C1 (counterexample): the claim fails as stated.  On a `max_levels = 1`
book, after the reset `exResetSmall` the delta `exDeltaBid99` is the last
(and only) delta naming price `99` and carries size `5`, yet the stored
bid size at `99` is absent: the trim pass at the end of `update` evicted
the level. -/
theorem claim_C1_counterexample :
    lastSize 99 (exDeltaBid99.b.getD []) = some 5 ∧
    sdGet (-99)
        (applyTrace (OrderBook.init "BTC/USD" 1) [exResetSmall, exDeltaBid99]).bids
      = none := by
  decide

/-- C1 (amended): for every sequence of matching delta messages applied
through `OrderBook.update` after a reset (any well-formed starting book),
provided the trim pass never evicts a level along the trace, the stored
size at a price equals the size of the last delta entry naming that price
(last-write-wins within and across calls), a `size = 0` entry removes the
level (a no-op if absent), and a price named by no delta keeps its
starting size. -/
theorem claim_C1 (msgs : List Msg) (bk : OrderBook) (hwf : WF bk)
    (hall : ∀ m ∈ msgs, deltaMsgOK bk.symbol m = true)
    (htf : trimFree bk msgs = true) (p : Price) :
    sdGet (-p) (applyTrace bk msgs).bids =
      (match lastSize p (msgs.flatMap fun m2 => m2.b.getD []) with
       | some s => if s = 0 then none else some s
       | none => sdGet (-p) bk.bids) ∧
    sdGet p (applyTrace bk msgs).asks =
      (match lastSize p (msgs.flatMap fun m2 => m2.a.getD []) with
       | some s => if s = 0 then none else some s
       | none => sdGet p bk.asks) :=
  lastWrite_trace msgs bk hwf hall htf p

/-- C1 (witness): a two-message delta trace overwriting bid `100` twice
and deleting ask `101`. -/
theorem claim_C1_witness :
    (WF exBookW ∧ (∀ m ∈ [exDeltaW1, exDeltaW2], deltaMsgOK exBookW.symbol m = true) ∧
      trimFree exBookW [exDeltaW1, exDeltaW2] = true) ∧
    sdGet (-100) (applyTrace exBookW [exDeltaW1, exDeltaW2]).bids = some 3 ∧
    sdGet 101 (applyTrace exBookW [exDeltaW1, exDeltaW2]).asks = none := by
  refine ⟨⟨by decide, by decide, by decide⟩, ?_, ?_⟩
  · have h := (claim_C1 [exDeltaW1, exDeltaW2] exBookW (by decide) (by decide)
      (by decide) 100).1
    rw [h]
    decide
  · have h := (claim_C1 [exDeltaW1, exDeltaW2] exBookW (by decide) (by decide)
      (by decide) 101).2
    rw [h]
    decide

/-- C2 (counterexample): the claim fails as stated.  On a `max_levels = 1`
book, the reset `exResetTwo` carries the positive-size ask `(102, 1)`,
yet after `update` the ask ladder does not contain it: the trim pass after
the rebuild evicted it. -/
theorem claim_C2_counterexample :
    (102, (1 : ℚ)) ∈ exResetTwo.a.getD [] ∧ (0 : ℚ) < 1 ∧
    sdGet 102 (OrderBook.update (OrderBook.init "BTC/USD" 1) exResetTwo).asks = none := by
  decide

/-- C2 (amended): a matching reset message on which the subsequent trim
pass evicts nothing rebuilds both ladders exactly from the reset entries
(sizes `≤ 0` dropped), independently of the prior state (any other prior
book with the same symbol yields the same ladders), and the exception-aware
update completes without error. -/
theorem claim_C2 (bk bk2 : OrderBook) (m : Msg)
    (hT : m.T = some "o") (hS : m.S = some bk.symbol) (hS2 : bk2.symbol = bk.symbol)
    (hr : m.r.getD false = true)
    (ht1 : OrderBook.trimBook (OrderBook.applyBody bk m) = OrderBook.applyBody bk m)
    (ht2 : OrderBook.trimBook (OrderBook.applyBody bk2 m) = OrderBook.applyBody bk2 m) :
    (OrderBook.update bk m).bids = OrderBook.resetLadderBids (m.b.getD []) ∧
    (OrderBook.update bk m).asks = OrderBook.resetLadderAsks (m.a.getD []) ∧
    (OrderBook.update bk2 m).bids = (OrderBook.update bk m).bids ∧
    (OrderBook.update bk2 m).asks = (OrderBook.update bk m).asks ∧
    (OrderBook.updateE bk (liftMsg m)).2 = none := by
  have hS' : m.S = some bk2.symbol := by rw [hS2]; exact hS
  have h1 := update_eq_of_ok hT hS
  have h2 := update_eq_of_ok hT hS'
  have hb1 := applyBody_reset bk m hr
  have hb2 := applyBody_reset bk2 m hr
  refine ⟨?_, ?_, ?_, ?_, ?_⟩
  · rw [h1, ht1, hb1.1]
  · rw [h1, ht1, hb1.2]
  · rw [h1, ht1, hb1.1, h2, ht2, hb2.1]
  · rw [h1, ht1, hb1.2, h2, ht2, hb2.2]
  · rw [updateE_lift]

/-- C2 (witness): the one-level reset `exResetSmall` applied both to a
book holding other levels and to an empty book with a different
`max_levels`. -/
theorem claim_C2_witness :
    (exResetSmall.T = some "o" ∧ exResetSmall.S = some exBookW.symbol ∧
      (OrderBook.init "BTC/USD" 3).symbol = exBookW.symbol ∧
      exResetSmall.r.getD false = true ∧
      OrderBook.trimBook (OrderBook.applyBody exBookW exResetSmall)
        = OrderBook.applyBody exBookW exResetSmall ∧
      OrderBook.trimBook (OrderBook.applyBody (OrderBook.init "BTC/USD" 3) exResetSmall)
        = OrderBook.applyBody (OrderBook.init "BTC/USD" 3) exResetSmall) ∧
    (OrderBook.update exBookW exResetSmall).bids
      = OrderBook.resetLadderBids (exResetSmall.b.getD []) ∧
    (OrderBook.update (OrderBook.init "BTC/USD" 3) exResetSmall).asks
      = (OrderBook.update exBookW exResetSmall).asks := by
  have h := claim_C2 exBookW (OrderBook.init "BTC/USD" 3) exResetSmall
    (by decide) (by decide) (by decide) (by decide) (by decide) (by decide)
  exact ⟨⟨by decide, by decide, by decide, by decide, by decide, by decide⟩,
    h.1, h.2.2.2.1⟩

/-- C3 (counterexample): the claim fails as stated.  With `max_levels = 1`
(and the code's trim-on-every-update cadence, `K = 1`), a reset carrying
two bids and no asks leaves two bid levels in place — exceeding
`max_levels + (K - 1) = 1` — because the trim pass is skipped whenever
either side is empty. -/
theorem claim_C3_counterexample :
    (OrderBook.init "BTC/USD" 1).max_levels = 1 ∧
    (applyTrace (OrderBook.init "BTC/USD" 1) [exResetBidsOnly]).bids.length = 2 ∧
    ¬ ((2 : ℕ) ≤ 1) := by
  decide

/-- C3 (amended): the code trims on every update (`K = 1`); starting from
the empty book, after any message trace, whenever both sides are nonempty
each side holds at most `max_levels` levels (`max_levels > 0`).  When a
side is empty the trim pass is skipped and no bound holds for the other
side. -/
theorem claim_C3 (msgs : List Msg) (sym : String) (mL : ℤ) (hml : 0 < mL)
    (hb : (applyTrace (OrderBook.init sym mL) msgs).bids ≠ [])
    (ha : (applyTrace (OrderBook.init sym mL) msgs).asks ≠ []) :
    (applyTrace (OrderBook.init sym mL) msgs).bids.length ≤ mL.toNat ∧
    (applyTrace (OrderBook.init sym mL) msgs).asks.length ≤ mL.toNat :=
  levelBound_trace msgs (OrderBook.init sym mL)
    ⟨List.Pairwise.nil, List.Pairwise.nil⟩ hml
    (fun hbb _ => absurd rfl hbb) hb ha

/-- C3 (witness): a two-level reset on a `max_levels = 1` book ends with
one level per side. -/
theorem claim_C3_witness :
    ((0 : ℤ) < 1 ∧
      (applyTrace (OrderBook.init "BTC/USD" 1) [exResetTwo]).bids ≠ [] ∧
      (applyTrace (OrderBook.init "BTC/USD" 1) [exResetTwo]).asks ≠ []) ∧
    (applyTrace (OrderBook.init "BTC/USD" 1) [exResetTwo]).bids.length ≤ (1 : ℤ).toNat ∧
    (applyTrace (OrderBook.init "BTC/USD" 1) [exResetTwo]).asks.length ≤ (1 : ℤ).toNat := by
  exact ⟨⟨by decide, by decide, by decide⟩,
    claim_C3 [exResetTwo] "BTC/USD" 1 (by decide) (by decide) (by decide)⟩

/-- C4 (counterexample): the claim fails as stated for the ask side.  On a
book whose asks are `101, 102, 103`, `get_asks` with `n = 2` returns the
two highest (farthest-from-mid) prices in descending order, not the two
lowest in ascending order. -/
theorem claim_C4_counterexample :
    OrderBook.getAsks exBookAsks3 (some 2) = [(103, 3), (102, 2)] ∧
    OrderBook.getAsks exBookAsks3 (some 2) ≠ [(101, 1), (102, 2)] := by
  decide

/-- C4 (amended): on a well-formed book, `get_bids` returns the `n`
best (highest) bids in descending price order, as the claim states; but
`get_asks` returns the Python slice of the descending-sorted ask prices:
the `n` highest (farthest from mid) asks, in descending order — not the
ascending nearest-to-mid listing the claim states. -/
theorem claim_C4 (bk : OrderBook) (n : ℤ) (hwf : WF bk) :
    OrderBook.getBids bk (some n) = (pyTake n bk.bids).map (fun e => (-e.1, e.2)) ∧
    (OrderBook.getBids bk (some n)).Pairwise (fun x y => y.1 < x.1) ∧
    OrderBook.getAsks bk (some n) = pyTake n bk.asks.reverse ∧
    (OrderBook.getAsks bk (some n)).Pairwise (fun x y => y.1 < x.1) :=
  ⟨getBids_eq bk n, getBids_pairwise hwf.1 n, getAsks_eq hwf.2 n, getAsks_pairwise hwf.2 n⟩

/-- C4 (witness): the three-ask book at `n = 2`. -/
theorem claim_C4_witness :
    WF exBookAsks3 ∧
    (OrderBook.getBids exBookAsks3 (some 2)
        = (pyTake 2 exBookAsks3.bids).map (fun e => (-e.1, e.2)) ∧
      (OrderBook.getBids exBookAsks3 (some 2)).Pairwise (fun x y => y.1 < x.1) ∧
      OrderBook.getAsks exBookAsks3 (some 2) = pyTake 2 exBookAsks3.asks.reverse ∧
      (OrderBook.getAsks exBookAsks3 (some 2)).Pairwise (fun x y => y.1 < x.1)) :=
  ⟨by decide, claim_C4 exBookAsks3 2 (by decide)⟩

/-- C5 (counterexample): the claim fails as stated.  A delta entry with a
negative size is stored verbatim by `_update_bids` (only `size == 0` is
special-cased), so after `exDeltaNeg` the bid ladder holds the size `-1`. -/
theorem claim_C5_counterexample :
    ((-100 : ℚ), (-1 : ℚ)) ∈
      (applyTrace (OrderBook.init "BTC/USD" 10) [exResetSmall, exDeltaNeg]).bids ∧
    ¬ ((0 : ℚ) < -1) := by
  decide

/-- C5 (amended): for every message trace from the empty book whose delta
entries all carry nonnegative sizes (reset entries are unrestricted, since
the rebuild drops sizes `≤ 0`), every stored size on both sides stays
strictly positive after every operation. -/
theorem claim_C5 (msgs : List Msg) (sym : String) (mL : ℤ)
    (h : ∀ m ∈ msgs, deltaSizesNonneg m = true) :
    SizesPos (applyTrace (OrderBook.init sym mL) msgs) := by
  unfold applyTrace
  refine @foldl_preserves_mem OrderBook Msg SizesPos OrderBook.update msgs
    (OrderBook.init sym mL) (fun bk2 m hm hp => SizesPos_update hp (h m hm)) ?_
  exact ⟨fun e he => absurd he (List.not_mem_nil e),
         fun e he => absurd he (List.not_mem_nil e)⟩

/-- C5 (witness): a reset followed by a positive-size delta. -/
theorem claim_C5_witness :
    (∀ m ∈ [exResetSmall, exDeltaW1], deltaSizesNonneg m = true) ∧
    SizesPos (applyTrace (OrderBook.init "BTC/USD" 10) [exResetSmall, exDeltaW1]) :=
  ⟨by decide, claim_C5 [exResetSmall, exDeltaW1] "BTC/USD" 10 (by decide)⟩

/-- C6 (counterexample): the claim fails as stated.  With
`max_levels = 0 ≤ 0`, a matching reset leaves the apply-phase book with
levels on both sides, and the trim step then evicts every one of them —
the opposite of disabling trimming. -/
theorem claim_C6_counterexample :
    (OrderBook.init "BTC/USD" 0).max_levels ≤ 0 ∧
    (OrderBook.applyBody (OrderBook.init "BTC/USD" 0) exResetTwo).bids ≠ [] ∧
    (OrderBook.applyBody (OrderBook.init "BTC/USD" 0) exResetTwo).asks ≠ [] ∧
    (OrderBook.update (OrderBook.init "BTC/USD" 0) exResetTwo).bids = [] ∧
    (OrderBook.update (OrderBook.init "BTC/USD" 0) exResetTwo).asks = [] := by
  decide

/-- C6 (amended): a non-positive `max_levels` does not disable trimming.
With `max_levels = 0`, any matching update whose apply phase leaves both
sides nonempty ends with both ladders empty: the Python slice `[:0]`
keeps nothing, so the trim step evicts every level. -/
theorem claim_C6 (bk : OrderBook) (m : Msg) (hwf : WF bk) (hml : bk.max_levels = 0)
    (hT : m.T = some "o") (hS : m.S = some bk.symbol)
    (hb : (OrderBook.applyBody bk m).bids ≠ [])
    (ha : (OrderBook.applyBody bk m).asks ≠ []) :
    (OrderBook.update bk m).bids = [] ∧ (OrderBook.update bk m).asks = [] := by
  rw [update_eq_of_ok hT hS]
  have hwfa := WF_applyBody hwf m
  rw [trimBook_eq hwfa.1 hwfa.2 hb ha]
  constructor <;> simp [applyBody_max_levels, hml, pyTake_zero]

/-- C6 (witness): the two-level reset on a `max_levels = 0` book. -/
theorem claim_C6_witness :
    (WF (OrderBook.init "BTC/USD" 0) ∧ (OrderBook.init "BTC/USD" 0).max_levels = 0 ∧
      exResetTwo.T = some "o" ∧ exResetTwo.S = some (OrderBook.init "BTC/USD" 0).symbol ∧
      (OrderBook.applyBody (OrderBook.init "BTC/USD" 0) exResetTwo).bids ≠ [] ∧
      (OrderBook.applyBody (OrderBook.init "BTC/USD" 0) exResetTwo).asks ≠ []) ∧
    (OrderBook.update (OrderBook.init "BTC/USD" 0) exResetTwo).bids = [] ∧
    (OrderBook.update (OrderBook.init "BTC/USD" 0) exResetTwo).asks = [] :=
  ⟨⟨by decide, by decide, by decide, by decide, by decide, by decide⟩,
    claim_C6 (OrderBook.init "BTC/USD" 0) exResetTwo
      (by decide) (by decide) (by decide) (by decide) (by decide) (by decide)⟩

/-- C7 (counterexample): the claim fails as stated.  On a matching
book-update message whose second bid entry lacks its price key, the update
raises `KeyError` (modelled by the error component) instead of skipping
and counting the bad entry. -/
theorem claim_C7_counterexample :
    (OrderBook.updateE (OrderBook.init "BTC/USD" 10) exMsgBadEntry).2
      = some "KeyError: p" := by
  decide

/-- C7 (amended): a malformed entry does not get skipped: `_update_bids`
raises `KeyError` at the first entry whose price key is missing, the call
aborts there (the ask list and the trim step never run, and nothing is
counted), and the well-formed entries before the bad one remain applied —
partial application. -/
theorem claim_C7 (bk : OrderBook) (ti : Option String)
    (good : List (Price × Size)) (bad : EntryE) (rest : List EntryE)
    (hbad : bad.p = none) :
    OrderBook.updateE bk
        { T := some "o", S := some bk.symbol, t := ti,
          b := some (good.map liftEntry ++ bad :: rest) }
      = ({ bk with
            last_update_time := ti,
            bids := OrderBook.updateBids good bk.bids },
         some "KeyError: p") := by
  have hb := updateBidsE_partial hbad good rest bk.bids
  unfold OrderBook.updateE
  rw [if_neg (by simp), if_neg (by simp)]
  have hne : ¬ (good.map liftEntry ++ bad :: rest = []) := by simp
  simp only [Option.getD_none, Bool.false_eq_true, reduceIte, hne, hb]

/-- C7 (witness): one good entry, then the malformed one. -/
theorem claim_C7_witness :
    (EntryE.p { s := some 5 } = none) ∧
    OrderBook.updateE (OrderBook.init "BTC/USD" 10)
        { T := some "o", S := some (OrderBook.init "BTC/USD" 10).symbol,
          t := some "ts8",
          b := some ([((100 : ℚ), (2 : ℚ))].map liftEntry ++ ({ s := some 5 } : EntryE) :: []) }
      = ({ OrderBook.init "BTC/USD" 10 with
            last_update_time := some "ts8",
            bids := OrderBook.updateBids [(100, 2)] (OrderBook.init "BTC/USD" 10).bids },
         some "KeyError: p") :=
  ⟨rfl, claim_C7 (OrderBook.init "BTC/USD" 10) (some "ts8")
    [(100, 2)] { s := some 5 } [] rfl⟩

/-- C8: two reset frames bearing the same snapshot timestamp inside one
wait window reset the book exactly once: the first is accepted and applied
through `OrderBook.update`; the second is detected as a duplicate, leaves
the book and the snapshot count unchanged, is not returned as a snapshot
(no error — the loop just flags `duplicate_detected`, sleeps briefly and
keeps waiting on the same deadline), and only sets the retry event. -/
theorem claim_C8 (st : StreamState) (m m2 : Msg)
    (h1 : isResetFrame st.symbol m = true) (h2 : isResetFrame st.symbol m2 = true)
    (hts : ¬ (m.t = st.last_snapshot_timestamp)) (heq : m2.t = m.t) :
    (checkForSnapshot st m).1.order_book = OrderBook.update st.order_book m ∧
    (checkForSnapshot st m).2 = some m ∧
    (checkForSnapshot (checkForSnapshot st m).1 m2).1.order_book
      = (checkForSnapshot st m).1.order_book ∧
    (checkForSnapshot (checkForSnapshot st m).1 m2).2 = none ∧
    (checkForSnapshot (checkForSnapshot st m).1 m2).1.duplicate_detected = true ∧
    (checkForSnapshot (checkForSnapshot st m).1 m2).1.snapshot_count
      = (checkForSnapshot st m).1.snapshot_count := by
  have e1 : checkForSnapshot st m =
      ({ st with
          last_snapshot_timestamp := m.t,
          snapshot_count := st.snapshot_count + 1,
          message_count := st.message_count + 1,
          order_book := OrderBook.update st.order_book m }, some m) := by
    unfold checkForSnapshot
    rw [if_pos h1, if_neg hts]
  rw [e1]
  have e2 : checkForSnapshot
      ({ st with
          last_snapshot_timestamp := m.t,
          snapshot_count := st.snapshot_count + 1,
          message_count := st.message_count + 1,
          order_book := OrderBook.update st.order_book m }) m2 =
      ({ st with
          last_snapshot_timestamp := m.t,
          snapshot_count := st.snapshot_count + 1,
          message_count := st.message_count + 1,
          order_book := OrderBook.update st.order_book m,
          duplicate_detected := true,
          snapshot_event_set := true }, none) := by
    unfold checkForSnapshot
    rw [if_pos h2, if_pos heq]
  rw [e2]
  exact ⟨rfl, rfl, rfl, rfl, rfl, rfl⟩

/-- C8 (witness): the same reset frame delivered twice to a fresh wait
window. -/
theorem claim_C8_witness :
    (isResetFrame exStream.symbol exResetSmall = true ∧
      ¬ (exResetSmall.t = exStream.last_snapshot_timestamp)) ∧
    (checkForSnapshot exStream exResetSmall).1.order_book
      = OrderBook.update exStream.order_book exResetSmall ∧
    (checkForSnapshot (checkForSnapshot exStream exResetSmall).1 exResetSmall).2 = none ∧
    (checkForSnapshot (checkForSnapshot exStream exResetSmall).1 exResetSmall).1.order_book
      = (checkForSnapshot exStream exResetSmall).1.order_book := by
  have h := claim_C8 exStream exResetSmall exResetSmall
    (by decide) (by decide) (by decide) rfl
  exact ⟨⟨by decide, by decide⟩, h.1, h.2.2.2.1, h.2.2.1⟩

/-- C9 (counterexample): the claim fails as stated.  Replaying the
recorded snapshot `exSnap` stores the bid under the key `100`, while the
equivalent wire reset stores it under the negated key `-100`; ladders and
queries diverge (`get_best_bid_price` returns `-100` on the replayed book
but `100` on the wire book). -/
theorem claim_C9_counterexample :
    (readerUpdate (OrderBook.init "BTC/USD" 10) exSnap).bids
      ≠ (OrderBook.update (OrderBook.init "BTC/USD" 10) exWireReset).bids ∧
    OrderBook.getBestBidPrice (readerUpdate (OrderBook.init "BTC/USD" 10) exSnap)
      = some (-100) ∧
    OrderBook.getBestBidPrice (OrderBook.update (OrderBook.init "BTC/USD" 10) exWireReset)
      = some 100 := by
  decide

/-- C9 (amended): replay and wire reset agree only on the ask side and
only for entries with nonzero price and positive size (the replay path
drops falsy — zero or missing — prices and sizes, the wire path drops
sizes `≤ 0`): for a recorded snapshot with no bids, both paths build the
same ask ladder and an empty bid ladder.  On the bid side the paths
differ (replay does not negate the keys; see the counterexample). -/
theorem claim_C9 (bk : OrderBook) (ti : Option String)
    (asks : List (Price × Size)) (h : ∀ e ∈ asks, e.1 ≠ 0 ∧ 0 < e.2) :
    (readerUpdate bk
        { time := ti, bids := [],
          asks := asks.map fun e => SnapEntry.mk (some e.1) (some e.2) }).asks
      = (OrderBook.update bk
          { T := some "o", S := some bk.symbol, t := ti, r := some true,
            b := some [], a := some asks }).asks ∧
    (readerUpdate bk
        { time := ti, bids := [],
          asks := asks.map fun e => SnapEntry.mk (some e.1) (some e.2) }).bids = [] ∧
    (OrderBook.update bk
        { T := some "o", S := some bk.symbol, t := ti, r := some true,
          b := some [], a := some asks }).bids = [] := by
  have hwire : OrderBook.update bk
      { T := some "o", S := some bk.symbol, t := ti, r := some true,
        b := some [], a := some asks }
      = OrderBook.applyBody bk
          { T := some "o", S := some bk.symbol, t := ti, r := some true,
            b := some [], a := some asks } := by
    rw [update_eq_of_ok rfl rfl]
    unfold OrderBook.trimBook
    have hbids : (OrderBook.applyBody bk
        { T := some "o", S := some bk.symbol, t := ti, r := some true,
          b := some [], a := some asks }).bids = [] :=
      (applyBody_reset bk
        { T := some "o", S := some bk.symbol, t := ti, r := some true,
          b := some [], a := some asks } rfl).1.trans rfl
    rw [if_pos (Or.inl hbids)]
  rw [hwire]
  have hmsg := applyBody_reset bk
      { T := some "o", S := some bk.symbol, t := ti, r := some true,
        b := some [], a := some asks } rfl
  refine ⟨?_, rfl, hmsg.1.trans rfl⟩
  rw [hmsg.2]
  show List.foldl readerAskStep []
      (asks.map fun e => SnapEntry.mk (some e.1) (some e.2))
    = OrderBook.resetLadderAsks asks
  exact (readerFold_asks asks [] h).trans rfl

/-- C9 (witness): one positive ask level, no bids. -/
theorem claim_C9_witness :
    (∀ e ∈ [((101 : ℚ), (1 : ℚ))], e.1 ≠ 0 ∧ 0 < e.2) ∧
    (readerUpdate (OrderBook.init "BTC/USD" 10)
        { time := some "ts9", bids := [],
          asks := [((101 : ℚ), (1 : ℚ))].map fun e => SnapEntry.mk (some e.1) (some e.2) }).asks
      = (OrderBook.update (OrderBook.init "BTC/USD" 10)
          { T := some "o", S := some (OrderBook.init "BTC/USD" 10).symbol,
            t := some "ts9", r := some true,
            b := some [], a := some [((101 : ℚ), (1 : ℚ))] }).asks :=
  ⟨by decide,
    (claim_C9 (OrderBook.init "BTC/USD" 10) (some "ts9")
      [((101 : ℚ), (1 : ℚ))] (by decide)).1⟩

/-- C10: the BookUpdate events the replay reader publishes carry the live
shared book, not a copy: after two `connect` iterations, dereferencing the
payload of the first published event yields the book state after the
second snapshot, which differs from the ladder state at its publish time.
The source passes `payload=self.order_book` — the mutable instance itself
crosses the queue boundary. -/
theorem claim_C10 :
    (replayPublish { book := OrderBook.init "BTC/USD" 10 } [exSnap, exSnap2]).queue
      = [Payload.liveBook, Payload.liveBook] ∧
    readPayload (replayPublish { book := OrderBook.init "BTC/USD" 10 } [exSnap, exSnap2])
        Payload.liveBook
      = readerUpdate (readerUpdate (OrderBook.init "BTC/USD" 10) exSnap) exSnap2 ∧
    readPayload (replayPublish { book := OrderBook.init "BTC/USD" 10 } [exSnap, exSnap2])
        Payload.liveBook
      ≠ readerUpdate (OrderBook.init "BTC/USD" 10) exSnap := by
  decide

end TradingSystem
